import Mathlib

set_option autoImplicit false

/-!
Verification of the audit / soft-delete schema augmentation
(`AuditSchema` in the repository, together with its instance methods and
query middleware).  The document-level model embeds the mongoose document
state needed by the `pre('save')` hook: the audit fields, the set of
modified paths, and the new-document flag.  The query-level model embeds
update payloads, filters, and the per-operation middleware rewrites.
-/

namespace Audit

/-- Actor reference, modelling `Types.ObjectId`. -/
structure ObjectId where
  oid : Nat
deriving DecidableEq, Repr

/-- Models `CustomServerException(errorCode, extraMessageCode)` as the audit
layer raises it (content and httpStatus are never passed there). -/
structure CustomServerException where
  errorCode : String
  extraMessageCode : String
deriving DecidableEq, Repr

/-- The error thrown by `softDelete` on an already deleted document, which the
spec names AlreadyDeleted: `new CustomServerException("mongoDb", "delete")`. -/
def alreadyDeletedError : CustomServerException :=
  { errorCode := "mongoDb", extraMessageCode := "delete" }

/-- The error thrown by `restore` on a live document, which the spec names
NotDeleted: `new CustomServerException("mongoDb", "restore")`. -/
def notDeletedError : CustomServerException :=
  { errorCode := "mongoDb", extraMessageCode := "restore" }

/-- A mongoose document carrying the `Audit` fields.  Timestamps are naturals,
absent optional values are `none` (modelling both `undefined` and `null`).
`payload` is the set of non-audit (domain) fields of the embedding schema,
`modified` models `modifiedPaths()`, and `isNew` the mongoose new-document
flag. -/
structure Doc where
  createdAt : Nat
  createdBy : Option ObjectId
  updatedAt : Nat
  updatedBy : Option ObjectId
  deletedAt : Option Nat
  deletedBy : Option ObjectId
  restoredBy : Option ObjectId
  version : Nat
  payload : List (String × Int)
  modified : List String
  isNew : Bool
deriving DecidableEq, Repr

/-- The audit field list from the `pre('save')` hook. -/
def auditFields : List String :=
  ["createdAt", "createdBy", "updatedAt", "updatedBy", "deletedAt",
   "deletedBy", "restoredBy", "version"]

/-- Assigning to a document path marks it modified. -/
def Doc.markModified (d : Doc) (path : String) : Doc :=
  if path ∈ d.modified then d else { d with modified := d.modified ++ [path] }

/-- `AuditSchema.pre('save')`.  `modifiedPaths` is captured before the hook
assigns the timestamps, exactly as in the source; the version is bumped only
when the captured modified paths contain a non-audit path. -/
def Doc.preSave (d : Doc) (now : Nat) : Except CustomServerException Doc :=
  let modifiedPaths := d.modified
  if d.deletedAt.isSome && !(modifiedPaths.contains "deletedAt") then
    .error { errorCode := "mongoDb", extraMessageCode := "save" }
  else
    let d1 := if d.isNew then (({ d with createdAt := now }).markModified "createdAt") else d
    let d2 := ({ d1 with updatedAt := now }).markModified "updatedAt"
    let isModified := !d2.modified.isEmpty
    let hasNonAuditChanges := modifiedPaths.any (fun p => !(auditFields.contains p))
    let d3 := if isModified && hasNonAuditChanges then { d2 with version := d2.version + 1 } else d2
    .ok d3

/-- `document.save()`: run the pre-save hook, then persist (the stored
document is no longer new and has no modified paths). -/
def Doc.save (d : Doc) (now : Nat) : Except CustomServerException Doc :=
  (d.preSave now).map (fun s => { s with isNew := false, modified := [] })

/-- `AuditSchema.methods.softDelete`.  `this.deletedBy = deletedBy || null`
collapses to the given option since `none` models both undefined and null. -/
def Doc.softDelete (d : Doc) (deletedBy : Option ObjectId) (now : Nat) :
    Except CustomServerException Doc :=
  if d.deletedAt.isSome then
    .error alreadyDeletedError
  else
    let d1 := ({ d with deletedAt := some now }).markModified "deletedAt"
    let d2 := ({ d1 with deletedBy := deletedBy }).markModified "deletedBy"
    let d3 := ({ d2 with updatedAt := now }).markModified "updatedAt"
    d3.save now

/-- `AuditSchema.methods.restore`.  `restoredBy` is assigned only when an
actor is supplied; `updatedBy` is assigned `restoredBy || null`
unconditionally; the version is bumped before saving. -/
def Doc.restore (d : Doc) (restoredBy : Option ObjectId) (now : Nat) :
    Except CustomServerException Doc :=
  if d.deletedAt.isNone then
    .error notDeletedError
  else
    let d1 := match restoredBy with
      | some r => ({ d with restoredBy := some r }).markModified "restoredBy"
      | none => d
    let d2 := ({ d1 with deletedAt := none }).markModified "deletedAt"
    let d3 := ({ d2 with deletedBy := none }).markModified "deletedBy"
    let d4 := ({ d3 with updatedBy := restoredBy }).markModified "updatedBy"
    let d5 := ({ d4 with updatedAt := now }).markModified "updatedAt"
    let d6 := ({ d5 with version := d5.version + 1 }).markModified "version"
    d6.save now

/-! ## Query-level model

The query middleware works on untyped update payloads and filters; we model
runtime JavaScript values as `JsValue`, a stored document as a flat key-value
list (JS objects have unique keys, so key updates erase previous bindings),
and a collection as a list of such records. -/

/-- A runtime JavaScript field value as the query middleware sees it.  An
absent key is modelled by `Option.none` at the lookup level. -/
inductive JsValue where
  | vNull : JsValue
  | vDate : Nat → JsValue
  | vId : ObjectId → JsValue
  | vNum : Int → JsValue
  | vStr : String → JsValue
deriving DecidableEq, Repr

/-- JavaScript truthiness of a possibly absent field value (`undefined` and
`null` are falsy, a `Date` object is always truthy, `0` and the empty string
are falsy). -/
def truthy : Option JsValue → Bool
  | none => false
  | some .vNull => false
  | some (.vDate _) => true
  | some (.vId _) => true
  | some (.vNum n) => decide (n ≠ 0)
  | some (.vStr s) => !(s == "")

/-- Key lookup in a JS-object-like key-value list. -/
def getEntry {α : Type} (r : List (String × α)) (k : String) : Option α :=
  (r.find? (fun p => p.1 == k)).map (fun p => p.2)

/-- Key assignment in a JS-object-like key-value list: previous bindings of
the key are dropped (JS object keys are unique). -/
def putEntry {α : Type} (r : List (String × α)) (k : String) (v : α) :
    List (String × α) :=
  r.filter (fun p => !(p.1 == k)) ++ [(k, v)]

/-- A stored document as the query middleware and the store see it. -/
abbrev Rec := List (String × JsValue)

/-- The numeric value of the version field of a stored record (0 when absent
or non-numeric, matching the `|| 0` coercions in the source and the behavior
of a mongo increment on a missing field). -/
def recVersion (r : Rec) : Int :=
  match getEntry r "version" with
  | some (.vNum n) => n
  | _ => 0

/-- Whether the deletion timestamp of a record is null or absent, i.e. the
record is live.  This is exactly what the mongo condition
deletedAt equal to null matches. -/
def deletedAtNull (r : Rec) : Bool :=
  match getEntry r "deletedAt" with
  | none => true
  | some .vNull => true
  | some _ => false

/-- A mongoose update payload: top-level fields (shorthand for a field set)
plus the set and inc sections. -/
structure UpdateQuery where
  fields : List (String × JsValue)
  set : List (String × JsValue)
  inc : List (String × Int)
deriving DecidableEq, Repr

/-- An equality-conditions filter, the shape every filter in this schema
takes.  A null condition matches both an absent and a null field. -/
abbrev Filter := List (String × JsValue)

/-- One filter condition against a record (mongo equality semantics: a null
condition matches null-or-missing). -/
def condMatches (r : Rec) (k : String) (v : JsValue) : Bool :=
  match v with
  | .vNull =>
    match getEntry r k with
    | none => true
    | some .vNull => true
    | some _ => false
  | v => getEntry r k == some v

/-- A record matches a filter when it satisfies every condition. -/
def matchesFilter (r : Rec) (f : Filter) : Bool :=
  f.all (fun kv => condMatches r kv.1 kv.2)

/-- Executing the field-set part of an update against a stored record. -/
def applySets (r : Rec) (sets : List (String × JsValue)) : Rec :=
  sets.foldl (fun acc kv => putEntry acc kv.1 kv.2) r

/-- Executing the inc part of an update: a missing or non-numeric field
counts as 0. -/
def applyIncs (r : Rec) (incs : List (String × Int)) : Rec :=
  incs.foldl (fun acc kv =>
    let cur : Int :=
      match getEntry acc kv.1 with
      | some (.vNum n) => n
      | _ => 0
    putEntry acc kv.1 (.vNum (cur + kv.2))) r

/-- Mongo execution of an update document against a stored record: top-level
fields act as field sets, then the set section, then the inc section. -/
def applyUpdate (r : Rec) (u : UpdateQuery) : Rec :=
  applyIncs (applySets (applySets r u.fields) u.set) u.inc

/-- The caller options relevant to this layer. -/
structure SoftDeleteOptions where
  includeDeleted : Bool := false
deriving DecidableEq, Repr

/-- `AuditSchema.pre(['updateOne', 'updateMany', 'findOneAndUpdate'])`: throw
when the top-level deletedAt of the payload is truthy, otherwise inject the
updated timestamp into the set section and force the version increment to
exactly 1. -/
def preUpdate (now : Nat) (u : UpdateQuery) : Except CustomServerException UpdateQuery :=
  if truthy (getEntry u.fields "deletedAt") then
    .error { errorCode := "mongoDb", extraMessageCode := "update" }
  else
    .ok { u with
      set := putEntry u.set "updatedAt" (.vDate now),
      inc := putEntry u.inc "version" 1 }

/-- `AuditSchema.pre('replaceOne')`: throw when the replacement has a truthy
deletedAt, otherwise stamp the updated timestamp and set the version to one
more than the replacement version (0 when falsy or non-numeric). -/
def preReplace (now : Nat) (replacement : Rec) : Except CustomServerException Rec :=
  if truthy (getEntry replacement "deletedAt") then
    .error { errorCode := "mongoDb", extraMessageCode := "replace" }
  else
    let r1 := putEntry replacement "updatedAt" (.vDate now)
    let v : Int :=
      match getEntry r1 "version" with
      | some (.vNum n) => if n = 0 then 0 else n
      | _ => 0
    .ok (putEntry r1 "version" (.vNum (v + 1)))

/-- Executing replaceOne against a stored record: the stored document becomes
the processed replacement, keeping its identifier. -/
def replaceOneDoc (now : Nat) (stored : Rec) (replacement : Rec) :
    Except CustomServerException Rec :=
  (preReplace now replacement).map (fun x =>
    match getEntry stored "_id" with
    | some i => putEntry x "_id" i
    | none => x)

/-- A collection of stored records. -/
abbrev Store := List Rec

/-- The where-clause injection shared by the find, findOne, countDocuments,
estimatedDocumentCount and distinct hooks: unless includeDeleted is set, add
the deletedAt-null condition to the filter. -/
def restrictToLive (opts : SoftDeleteOptions) (f : Filter) : Filter :=
  if opts.includeDeleted then f else f ++ [("deletedAt", JsValue.vNull)]

/-- `AuditSchema.pre('find')` followed by execution against the store. -/
def findDocs (store : Store) (f : Filter) (opts : SoftDeleteOptions) : List Rec :=
  store.filter (fun r => matchesFilter r (restrictToLive opts f))

/-- `AuditSchema.pre('findOne')` followed by execution against the store. -/
def findOneDoc (store : Store) (f : Filter) (opts : SoftDeleteOptions) : Option Rec :=
  (findDocs store f opts).head?

/-- `AuditSchema.pre('countDocuments')` followed by execution. -/
def countDocs (store : Store) (f : Filter) (opts : SoftDeleteOptions) : Nat :=
  (store.filter (fun r => matchesFilter r (restrictToLive opts f))).length

/-- `AuditSchema.pre('estimatedDocumentCount')` followed by execution of the
query object the hook produces (the hook injects the same where clause). -/
def estimatedCountDocs (store : Store) (f : Filter) (opts : SoftDeleteOptions) : Nat :=
  (store.filter (fun r => matchesFilter r (restrictToLive opts f))).length

/-- `AuditSchema.pre('distinct')` followed by execution: the distinct values
of a key among the records matching the (possibly restricted) filter. -/
def distinctDocs (store : Store) (key : String) (f : Filter)
    (opts : SoftDeleteOptions) : List JsValue :=
  ((store.filter (fun r => matchesFilter r (restrictToLive opts f))).filterMap
    (fun r => getEntry r key)).dedup

/-- `AuditSchema.pre('aggregate')`: unless includeDeleted is set, a match
stage excluding deleted documents is unshifted onto the pipeline.  We model
the pipeline as a list of match stages. -/
def preAggregate (opts : SoftDeleteOptions) (pipeline : List Filter) : List Filter :=
  if opts.includeDeleted then pipeline else [("deletedAt", JsValue.vNull)] :: pipeline

/-- Executing a match-stage pipeline against the store. -/
def runPipeline (store : Store) (pipeline : List Filter) : List Rec :=
  pipeline.foldl (fun docs stage => docs.filter (fun r => matchesFilter r stage)) store

/-- Aggregation with the aggregate hook applied. -/
def aggregateDocs (store : Store) (pipeline : List Filter)
    (opts : SoftDeleteOptions) : List Rec :=
  runPipeline store (preAggregate opts pipeline)

/-- `Model.updateMany(filter, update)` with its pre hook: run the update hook
and apply the processed update to every matching record.  Note the hook adds
no liveness restriction to the filter. -/
def updateManyDocs (store : Store) (f : Filter) (u : UpdateQuery) (now : Nat) :
    Except CustomServerException Store :=
  (preUpdate now u).map (fun u2 =>
    store.map (fun r => if matchesFilter r f then applyUpdate r u2 else r))

/-- Apply a function to the first record matching a filter. -/
def updateFirst (store : Store) (f : Filter) (g : Rec → Rec) : Store :=
  match store with
  | [] => []
  | r :: rest => if matchesFilter r f then g r :: rest else r :: updateFirst rest f g

/-- Remove the first record matching a filter. -/
def removeFirst (store : Store) (f : Filter) : Store :=
  match store with
  | [] => []
  | r :: rest => if matchesFilter r f then rest else r :: removeFirst rest f

/-- The translation update built by the delete hooks:
set deletedAt and updatedAt to now and increment version by 1. -/
def deleteStamp (now : Nat) : UpdateQuery :=
  { fields := [],
    set := [("deletedAt", JsValue.vDate now), ("updatedAt", JsValue.vDate now)],
    inc := [("version", 1)] }

/-- The effect of the delete-translation update on one record. -/
def stampRec (now : Nat) (r : Rec) : Rec :=
  putEntry (putEntry (putEntry r "deletedAt" (.vDate now)) "updatedAt" (.vDate now))
    "version" (.vNum (recVersion r + 1))

/-- `AuditSchema.pre(['deleteOne', 'deleteMany'])` followed by the native
deleteMany execution: first the model-level updateMany stamps every matching
record (through the update hook), then, unless the justDelete option is set,
the match criteria are neutralized by adding an id-null condition; finally
the native delete removes every record matching the resulting criteria. -/
def deleteManyDocs (store : Store) (f : Filter) (justDelete : Bool) (now : Nat) : Store :=
  let stamped :=
    match updateManyDocs store f (deleteStamp now) now with
    | .ok s => s
    | .error _ => store
  let f2 := if justDelete then f else f ++ [("_id", JsValue.vNull)]
  stamped.filter (fun r => !(matchesFilter r f2))

/-- Same hook for deleteOne: the stamping update is still an updateMany over
all matching records; only the native execution removes at most one record. -/
def deleteOneDocs (store : Store) (f : Filter) (justDelete : Bool) (now : Nat) : Store :=
  let stamped :=
    match updateManyDocs store f (deleteStamp now) now with
    | .ok s => s
    | .error _ => store
  let f2 := if justDelete then f else f ++ [("_id", JsValue.vNull)]
  removeFirst stamped f2

/-- `AuditSchema.pre('findOneAndDelete')`: a model-level updateOne stamps the
first matching record (through the update hook), the criteria are always
neutralized, then the native execution removes the first record matching the
resulting criteria. -/
def findOneAndDeleteDocs (store : Store) (f : Filter) (now : Nat) : Store :=
  let stamped :=
    match preUpdate now (deleteStamp now) with
    | .ok u2 => updateFirst store f (fun r => applyUpdate r u2)
    | .error _ => store
  removeFirst stamped (f ++ [("_id", JsValue.vNull)])

/-! ## Concrete sample inputs -/

/-- A live, clean, persisted document at version 5. -/
def sampleLiveDoc : Doc :=
  { createdAt := 0, createdBy := none, updatedAt := 0, updatedBy := none,
    deletedAt := none, deletedBy := none, restoredBy := none, version := 5,
    payload := [("name", 1)], modified := [], isNew := false }

/-- The result of saving the live sample document at time 3. -/
def sampleSavedDoc : Doc :=
  { createdAt := 0, createdBy := none, updatedAt := 3, updatedBy := none,
    deletedAt := none, deletedBy := none, restoredBy := none, version := 5,
    payload := [("name", 1)], modified := [], isNew := false }

/-- A clean, persisted document that is already soft-deleted. -/
def sampleDeletedDoc : Doc :=
  { createdAt := 0, createdBy := none, updatedAt := 2, updatedBy := none,
    deletedAt := some 2, deletedBy := some ⟨7⟩, restoredBy := none, version := 4,
    payload := [("name", 1)], modified := [], isNew := false }

/-- A new document on which no non-audit path was modified at creation. -/
def sampleNewEmptyDoc : Doc :=
  { createdAt := 0, createdBy := none, updatedAt := 0, updatedBy := none,
    deletedAt := none, deletedBy := none, restoredBy := none, version := 0,
    payload := [], modified := [], isNew := true }

/-- A new document whose creation set one non-audit field. -/
def sampleNewDoc : Doc :=
  { createdAt := 0, createdBy := none, updatedAt := 0, updatedBy := none,
    deletedAt := none, deletedBy := none, restoredBy := none, version := 0,
    payload := [("name", 1)], modified := ["name"], isNew := true }

/-- A live stored record at version 5. -/
def sampleRec : Rec :=
  [("_id", .vId ⟨1⟩), ("name", .vStr "a"), ("version", .vNum 5)]

/-- A replacement document carrying no version field. -/
def sampleReplacement : Rec :=
  [("name", .vStr "b")]

/-- A stored record that is already soft-deleted. -/
def sampleDeletedRec : Rec :=
  [("_id", .vId ⟨2⟩), ("age", .vNum 30), ("deletedAt", .vDate 2),
   ("updatedAt", .vDate 2), ("version", .vNum 3)]

/-- A live stored record whose version field is part of the delete filter
used in the override counterexample. -/
def sampleVersionRec : Rec :=
  [("_id", .vId ⟨3⟩), ("version", .vNum 1)]

/-- An update payload that explicitly sets the deletion timestamp to null. -/
def sampleNullDeleteUpdate : UpdateQuery :=
  { fields := [("deletedAt", .vNull)], set := [], inc := [] }

/-- An update payload changing two domain fields. -/
def sampleTwoFieldUpdate : UpdateQuery :=
  { fields := [("age", .vNum 29), ("city", .vStr "x")], set := [], inc := [] }

end Audit

/-! ## Helper lemmas -/

namespace Audit

@[simp] theorem markModified_createdAt (d : Doc) (p : String) :
    (d.markModified p).createdAt = d.createdAt := by
  unfold Doc.markModified; split <;> rfl

@[simp] theorem markModified_createdBy (d : Doc) (p : String) :
    (d.markModified p).createdBy = d.createdBy := by
  unfold Doc.markModified; split <;> rfl

@[simp] theorem markModified_updatedAt (d : Doc) (p : String) :
    (d.markModified p).updatedAt = d.updatedAt := by
  unfold Doc.markModified; split <;> rfl

@[simp] theorem markModified_updatedBy (d : Doc) (p : String) :
    (d.markModified p).updatedBy = d.updatedBy := by
  unfold Doc.markModified; split <;> rfl

@[simp] theorem markModified_deletedAt (d : Doc) (p : String) :
    (d.markModified p).deletedAt = d.deletedAt := by
  unfold Doc.markModified; split <;> rfl

@[simp] theorem markModified_deletedBy (d : Doc) (p : String) :
    (d.markModified p).deletedBy = d.deletedBy := by
  unfold Doc.markModified; split <;> rfl

@[simp] theorem markModified_restoredBy (d : Doc) (p : String) :
    (d.markModified p).restoredBy = d.restoredBy := by
  unfold Doc.markModified; split <;> rfl

@[simp] theorem markModified_version (d : Doc) (p : String) :
    (d.markModified p).version = d.version := by
  unfold Doc.markModified; split <;> rfl

@[simp] theorem markModified_payload (d : Doc) (p : String) :
    (d.markModified p).payload = d.payload := by
  unfold Doc.markModified; split <;> rfl

@[simp] theorem markModified_isNew (d : Doc) (p : String) :
    (d.markModified p).isNew = d.isNew := by
  unfold Doc.markModified; split <;> rfl

theorem mem_markModified_self (d : Doc) (p : String) :
    p ∈ (d.markModified p).modified := by
  unfold Doc.markModified
  split
  · assumption
  · simp

@[simp] theorem markModified_isEmpty (d : Doc) (p : String) :
    (d.markModified p).modified.isEmpty = false := by
  have h := mem_markModified_self d p
  cases hm : (d.markModified p).modified
  · rw [hm] at h
    exact absurd h (List.not_mem_nil p)
  · rfl

theorem mem_markModified_of_mem (d : Doc) (p q : String) (h : q ∈ d.modified) :
    q ∈ (d.markModified p).modified := by
  unfold Doc.markModified
  split
  · exact h
  · exact List.mem_append_left _ h

/-- Complete characterization of a successful `save`: the guard of the save
hook must fail, and then the saved document has its timestamps stamped, its
version bumped exactly when a non-audit path was modified, and is persisted
clean. -/
theorem save_ok_spec (d : Doc) (t : Nat)
    (hc : (d.deletedAt.isSome && !(d.modified.contains "deletedAt")) = false) :
    d.save t = .ok
      { createdAt := if d.isNew then t else d.createdAt,
        createdBy := d.createdBy,
        updatedAt := t,
        updatedBy := d.updatedBy,
        deletedAt := d.deletedAt,
        deletedBy := d.deletedBy,
        restoredBy := d.restoredBy,
        version := if d.modified.any (fun p => !(auditFields.contains p)) then
            d.version + 1
          else d.version,
        payload := d.payload,
        modified := [],
        isNew := false } := by
  unfold Doc.save Doc.preSave
  simp only [Except.map, hc, Bool.false_eq_true, if_false, markModified_isEmpty,
    Bool.not_false, Bool.true_and]
  cases hnw : d.isNew <;>
    cases hany : d.modified.any (fun p => !(auditFields.contains p)) <;>
      simp only [hnw, hany, Bool.false_eq_true, Bool.true_eq_false, eq_self_iff_true,
        if_true, if_false, Except.ok.injEq, Doc.mk.injEq, markModified_createdAt,
        markModified_createdBy, markModified_updatedAt, markModified_updatedBy,
        markModified_deletedAt, markModified_deletedBy, markModified_restoredBy,
        markModified_version, markModified_payload, markModified_isNew]

/-- A save whose guard fires is rejected. -/
theorem save_error_spec (d : Doc) (t : Nat)
    (hc : (d.deletedAt.isSome && !(d.modified.contains "deletedAt")) = true) :
    d.save t = .error { errorCode := "mongoDb", extraMessageCode := "save" } := by
  unfold Doc.save Doc.preSave
  simp only [hc, eq_self_iff_true, if_true, Except.map]

/-- A successful save keeps the version or bumps it by exactly one. -/
theorem save_version_eq (d : Doc) (t : Nat) (d2 : Doc) (h : d.save t = .ok d2) :
    d2.version = d.version ∨ d2.version = d.version + 1 := by
  cases hc : (d.deletedAt.isSome && !(d.modified.contains "deletedAt")) with
  | false =>
    rw [save_ok_spec d t hc] at h
    rw [Except.ok.injEq] at h
    subst h
    cases hany : d.modified.any (fun p => !(auditFields.contains p)) <;> simp [hany]
  | true =>
    rw [save_error_spec d t hc] at h
    exact absurd h (by simp)

/-- A successful instance softDelete never lowers the version. -/
theorem softDelete_version_mono (d : Doc) (a : Option ObjectId) (t : Nat) (d2 : Doc)
    (h : d.softDelete a t = .ok d2) : d.version ≤ d2.version := by
  unfold Doc.softDelete at h
  split at h
  · exact absurd h (by simp)
  · have hv := save_version_eq _ t d2 h
    simp only [markModified_version] at hv
    rcases hv with hv | hv <;> simp [hv]

/-- A successful instance restore never lowers the version. -/
theorem restore_version_mono (d : Doc) (a : Option ObjectId) (t : Nat) (d2 : Doc)
    (h : d.restore a t = .ok d2) : d.version ≤ d2.version := by
  unfold Doc.restore at h
  split at h
  · exact absurd h (by simp)
  · cases a with
    | some r =>
      have hv := save_version_eq _ t d2 h
      simp only [markModified_version] at hv
      rcases hv with hv | hv <;> omega
    | none =>
      have hv := save_version_eq _ t d2 h
      simp only [markModified_version] at hv
      rcases hv with hv | hv <;> omega

theorem getEntry_putEntry_self {α : Type} (r : List (String × α)) (k : String) (v : α) :
    getEntry (putEntry r k v) k = some v := by
  unfold getEntry putEntry
  induction r with
  | nil => simp
  | cons p rest ih =>
    cases hp : p.1 == k with
    | true => simp [List.filter_cons, hp]
    | false => simp [List.filter_cons, hp]

theorem getEntry_putEntry_other {α : Type} (r : List (String × α)) (k q : String)
    (v : α) (h : q ≠ k) : getEntry (putEntry r k v) q = getEntry r q := by
  unfold getEntry putEntry
  induction r with
  | nil => simp [Ne.symm h]
  | cons p rest ih =>
    cases hp : p.1 == k with
    | true =>
      have hp1 : p.1 = k := by simpa using hp
      have hpq : (p.1 == q) = false := by simp [hp1, Ne.symm h]
      simp only [List.filter_cons, hp, Bool.not_true, if_false, List.find?_cons, hpq] at *
      simpa using ih
    | false =>
      cases hpq : p.1 == q with
      | true => simp [List.filter_cons, hp, List.find?_cons, hpq]
      | false =>
        simp only [List.filter_cons, hp, Bool.not_false, if_true, List.cons_append,
          List.find?_cons, hpq] at *
        simpa using ih

theorem getEntry_applySets (r : Rec) (sets : List (String × JsValue)) (k : String)
    (h : ∀ kv ∈ sets, ¬ kv.1 = k) :
    getEntry (applySets r sets) k = getEntry r k := by
  induction sets generalizing r with
  | nil => rfl
  | cons kv rest ih =>
    unfold applySets at *
    rw [List.foldl_cons]
    rw [ih (putEntry r kv.1 kv.2) (fun x hx => h x (List.mem_cons_of_mem kv hx))]
    exact getEntry_putEntry_other r kv.1 k kv.2
      (fun hk => h kv (List.mem_cons_self kv rest) hk.symm)

theorem getEntry_applyIncs (r : Rec) (incs : List (String × Int)) (k : String)
    (h : ∀ kv ∈ incs, ¬ kv.1 = k) :
    getEntry (applyIncs r incs) k = getEntry r k := by
  induction incs generalizing r with
  | nil => rfl
  | cons kv rest ih =>
    unfold applyIncs at *
    rw [List.foldl_cons]
    rw [ih _ (fun x hx => h x (List.mem_cons_of_mem kv hx))]
    exact getEntry_putEntry_other r kv.1 k _
      (fun hk => h kv (List.mem_cons_self kv rest) hk.symm)

theorem applyIncs_append (r : Rec) (l1 l2 : List (String × Int)) :
    applyIncs r (l1 ++ l2) = applyIncs (applyIncs r l1) l2 := by
  unfold applyIncs
  exact List.foldl_append _ _ l1 l2

theorem recVersion_putEntry (r : Rec) (n : Int) :
    recVersion (putEntry r "version" (JsValue.vNum n)) = n := by
  unfold recVersion
  rw [getEntry_putEntry_self]

theorem recVersion_applyIncs_version (r : Rec) (n : Int) :
    recVersion (applyIncs r [("version", n)]) = recVersion r + n := by
  show recVersion (putEntry r "version" (JsValue.vNum (recVersion r + n))) = recVersion r + n
  exact recVersion_putEntry r _

theorem preUpdate_ok (now : Nat) (u : UpdateQuery)
    (hacc : truthy (getEntry u.fields "deletedAt") = false) :
    preUpdate now u = .ok { u with
      set := putEntry u.set "updatedAt" (.vDate now),
      inc := putEntry u.inc "version" 1 } := by
  unfold preUpdate
  simp [hacc]

theorem preUpdate_error (now : Nat) (u : UpdateQuery)
    (hacc : truthy (getEntry u.fields "deletedAt") = true) :
    preUpdate now u = .error { errorCode := "mongoDb", extraMessageCode := "update" } := by
  unfold preUpdate
  simp [hacc]

theorem preReplace_error (now : Nat) (replacement : Rec)
    (hacc : truthy (getEntry replacement "deletedAt") = true) :
    preReplace now replacement =
      .error { errorCode := "mongoDb", extraMessageCode := "replace" } := by
  unfold preReplace
  simp [hacc]

/-- The version of a record after an update processed by the update hook is
exactly one more than before, provided the caller payload does not itself
target the version field. -/
theorem recVersion_applyUpdate_inject (r : Rec) (u : UpdateQuery) (now : Nat)
    (hf : ∀ kv ∈ u.fields, ¬ kv.1 = "version")
    (hs : ∀ kv ∈ u.set, ¬ kv.1 = "version") :
    recVersion (applyUpdate r { u with
      set := putEntry u.set "updatedAt" (.vDate now),
      inc := putEntry u.inc "version" 1 }) = recVersion r + 1 := by
  unfold applyUpdate
  have hs2 : ∀ kv ∈ putEntry u.set "updatedAt" (JsValue.vDate now), ¬ kv.1 = "version" := by
    intro kv hkv
    unfold putEntry at hkv
    rcases List.mem_append.mp hkv with hkv | hkv
    · exact hs kv (List.mem_of_mem_filter hkv)
    · simp at hkv
      rw [hkv]
      simp
  have hincs : ∀ kv ∈ u.inc.filter (fun p => !(p.1 == "version")), ¬ kv.1 = "version" := by
    intro kv hkv
    have hb := List.of_mem_filter hkv
    simpa using hb
  have hsplit : putEntry u.inc "version" (1 : Int) =
      u.inc.filter (fun p => !(p.1 == "version")) ++ [("version", (1 : Int))] := rfl
  rw [hsplit, applyIncs_append, recVersion_applyIncs_version]
  have h1 : getEntry (applyIncs (applySets (applySets r u.fields)
      (putEntry u.set "updatedAt" (JsValue.vDate now)))
      (u.inc.filter (fun p => !(p.1 == "version")))) "version" = getEntry r "version" := by
    rw [getEntry_applyIncs _ _ _ hincs, getEntry_applySets _ _ _ hs2,
      getEntry_applySets _ _ _ hf]
  unfold recVersion
  rw [h1]

theorem preUpdate_deleteStamp (now : Nat) :
    preUpdate now (deleteStamp now) = .ok (deleteStamp now) := rfl

theorem applyUpdate_deleteStamp (r : Rec) (now : Nat) :
    applyUpdate r (deleteStamp now) = stampRec now r := by
  have hS : getEntry (putEntry (putEntry r "deletedAt" (JsValue.vDate now)) "updatedAt"
      (JsValue.vDate now)) "version" = getEntry r "version" := by
    rw [getEntry_putEntry_other _ _ _ _ (by decide),
      getEntry_putEntry_other _ _ _ _ (by decide)]
  unfold applyUpdate deleteStamp applySets applyIncs stampRec recVersion
  simp only [List.foldl_cons, List.foldl_nil]
  rw [hS]

theorem matchesFilter_append (r : Rec) (f g : Filter) :
    matchesFilter r (f ++ g) = (matchesFilter r f && matchesFilter r g) := by
  unfold matchesFilter
  exact List.all_append

theorem condMatches_deletedAt_null (r : Rec) :
    condMatches r "deletedAt" JsValue.vNull = deletedAtNull r := rfl

theorem matchesFilter_single (r : Rec) (k : String) (v : JsValue) :
    matchesFilter r [(k, v)] = condMatches r k v := by
  simp [matchesFilter]

theorem matchesFilter_restrict_default (r : Rec) (f : Filter) :
    matchesFilter r (restrictToLive { includeDeleted := false } f) =
      (matchesFilter r f && deletedAtNull r) := by
  unfold restrictToLive
  rw [if_neg (by simp)]
  rw [matchesFilter_append, matchesFilter_single, condMatches_deletedAt_null]

theorem condMatches_id_null_of_truthy (r : Rec) (h : truthy (getEntry r "_id") = true) :
    condMatches r "_id" JsValue.vNull = false := by
  unfold condMatches
  cases hg : getEntry r "_id" with
  | none => rw [hg] at h; exact absurd h (by simp [truthy])
  | some v =>
    cases v with
    | vNull => rw [hg] at h; exact absurd h (by simp [truthy])
    | vDate t => rfl
    | vId i => rfl
    | vNum n => rfl
    | vStr s => rfl

theorem getEntry_stampRec_id (now : Nat) (r : Rec) :
    getEntry (stampRec now r) "_id" = getEntry r "_id" := by
  unfold stampRec
  rw [getEntry_putEntry_other _ _ _ _ (by decide),
    getEntry_putEntry_other _ _ _ _ (by decide),
    getEntry_putEntry_other _ _ _ _ (by decide)]

theorem mem_of_mem_runPipeline (store : Store) (p : List Filter) (r : Rec)
    (h : r ∈ runPipeline store p) : r ∈ store := by
  induction p generalizing store with
  | nil => exact h
  | cons stage rest ih =>
    unfold runPipeline at h
    rw [List.foldl_cons] at h
    exact List.mem_of_mem_filter (ih _ h)

theorem removeFirst_of_none_match (store : Store) (f : Filter)
    (h : ∀ r ∈ store, matchesFilter r f = false) :
    removeFirst store f = store := by
  induction store with
  | nil => rfl
  | cons r rest ih =>
    unfold removeFirst
    rw [if_neg (by simp [h r (List.mem_cons_self r rest)])]
    rw [ih (fun x hx => h x (List.mem_cons_of_mem r hx))]

theorem mem_updateFirst (store : Store) (f : Filter) (g : Rec → Rec) (x : Rec)
    (h : x ∈ updateFirst store f g) : x ∈ store ∨ ∃ r ∈ store, x = g r := by
  induction store with
  | nil => exact absurd h (by simp [updateFirst])
  | cons r rest ih =>
    unfold updateFirst at h
    by_cases hm : matchesFilter r f = true
    · rw [if_pos hm] at h
      rcases List.mem_cons.mp h with h | h
      · exact Or.inr ⟨r, List.mem_cons_self r rest, h⟩
      · exact Or.inl (List.mem_cons_of_mem r h)
    · rw [if_neg hm] at h
      rcases List.mem_cons.mp h with h | h
      · exact Or.inl (by simp [h])
      · rcases ih h with h | ⟨r2, hr2, hx⟩
        · exact Or.inl (List.mem_cons_of_mem _ h)
        · exact Or.inr ⟨r2, List.mem_cons_of_mem _ hr2, hx⟩

theorem deleteManyDocs_eq (store : Store) (f : Filter) (jd : Bool) (now : Nat) :
    deleteManyDocs store f jd now =
      (store.map (fun r => if matchesFilter r f then stampRec now r else r)).filter
        (fun r => !(matchesFilter r
          (if jd then f else f ++ [("_id", JsValue.vNull)]))) := by
  unfold deleteManyDocs updateManyDocs
  rw [preUpdate_deleteStamp]
  simp only [Except.map]
  simp [applyUpdate_deleteStamp]

theorem deleteOneDocs_eq (store : Store) (f : Filter) (jd : Bool) (now : Nat) :
    deleteOneDocs store f jd now =
      removeFirst
        (store.map (fun r => if matchesFilter r f then stampRec now r else r))
        (if jd then f else f ++ [("_id", JsValue.vNull)]) := by
  unfold deleteOneDocs updateManyDocs
  rw [preUpdate_deleteStamp]
  simp only [Except.map]
  simp [applyUpdate_deleteStamp]

theorem findOneAndDeleteDocs_eq (store : Store) (f : Filter) (now : Nat) :
    findOneAndDeleteDocs store f now =
      removeFirst (updateFirst store f (stampRec now))
        (f ++ [("_id", JsValue.vNull)]) := by
  unfold findOneAndDeleteDocs
  rw [preUpdate_deleteStamp]
  simp [applyUpdate_deleteStamp]

theorem not_matches_neutralized (r : Rec) (f : Filter)
    (h : truthy (getEntry r "_id") = true) :
    matchesFilter r (f ++ [("_id", JsValue.vNull)]) = false := by
  rw [matchesFilter_append, matchesFilter_single, condMatches_id_null_of_truthy r h]
  simp

theorem mem_findDocs_default_live (store : Store) (f : Filter) (r : Rec)
    (h : r ∈ findDocs store f { includeDeleted := false }) : deletedAtNull r = true := by
  unfold findDocs at h
  have hm := (List.mem_filter.mp h).2
  rw [matchesFilter_restrict_default] at hm
  exact (Bool.and_eq_true_iff.mp hm).2

end Audit

/-! ## Claim theorems -/

namespace Audit

/-- C1 counterexample: on the concrete live document at version 5, softDelete
followed by restore succeeds but yields version 6: the instance softDelete
does not bump the version (the save hook skips audit-only changes), so the
round trip increments by 1, not by 2. -/
theorem C1_counterexample :
    ((sampleLiveDoc.softDelete (some ⟨1⟩) 10).bind
        (fun x => x.restore (some ⟨2⟩) 20)).map Doc.version = Except.ok 6 ∧
      (6 : Nat) ≠ sampleLiveDoc.version + 2 :=
  ⟨rfl, by decide⟩

/-- C1 (amended): for every live clean record, softDelete(actorA) then
restore(actorB) succeeds and leaves deletedAt null, deletedBy null,
restoredBy = actorB, and version incremented by exactly 1 (not 2). -/
theorem C1_softDelete_restore_roundtrip (d : Doc) (a b : ObjectId) (t1 t2 : Nat)
    (hlive : d.deletedAt = none) (hclean : d.modified = []) :
    ((d.softDelete (some a) t1).bind (fun x => x.restore (some b) t2)).map
        (fun x => (x.deletedAt, x.deletedBy, x.restoredBy, x.version)) =
      Except.ok (none, none, some b, d.version + 1) := by
  obtain ⟨ca, cb, ua, ub, da, db, rb, v, pl, md, nw⟩ := d
  obtain rfl : da = none := hlive
  obtain rfl : md = [] := hclean
  cases nw <;>
    simp [Doc.softDelete, Doc.restore, Doc.save, Doc.preSave, Doc.markModified,
      auditFields, Except.map, Except.bind]

/-- Witness for C1 at a concrete document and actors. -/
theorem C1_witness :
    ((sampleLiveDoc.softDelete (some ⟨3⟩) 11).bind
        (fun x => x.restore (some ⟨4⟩) 21)).map
        (fun x => (x.deletedAt, x.deletedBy, x.restoredBy, x.version)) =
      Except.ok (none, none, some ⟨4⟩, sampleLiveDoc.version + 1) :=
  C1_softDelete_restore_roundtrip sampleLiveDoc ⟨3⟩ ⟨4⟩ 11 21 rfl rfl

/-- C2 counterexample: an update payload that explicitly sets deletedAt to
null is NOT rejected by the update hook; it is accepted and the usual audit
injection is performed, so the generic path can clear deletion state. -/
theorem C2_counterexample :
    preUpdate 7 sampleNullDeleteUpdate = Except.ok
      { fields := [("deletedAt", JsValue.vNull)],
        set := [("updatedAt", JsValue.vDate 7)],
        inc := [("version", 1)] } := rfl

/-- C2 (amended): the generic update and replace hooks fail before any write
exactly when the payload sets the top-level deletedAt to a truthy value (such
as a Date); null values pass through. -/
theorem C2_reject_truthy_deletedAt (u : UpdateQuery) (rep : Rec) (t1 t2 : Nat)
    (hu : truthy (getEntry u.fields "deletedAt") = true)
    (hr : truthy (getEntry rep "deletedAt") = true) :
    preUpdate t1 u = .error { errorCode := "mongoDb", extraMessageCode := "update" } ∧
      preReplace t2 rep =
        .error { errorCode := "mongoDb", extraMessageCode := "replace" } :=
  ⟨preUpdate_error t1 u hu, preReplace_error t2 rep hr⟩

/-- Witness for C2 at a concrete date-valued payload. -/
theorem C2_witness :
    preUpdate 3 { fields := [("deletedAt", JsValue.vDate 5)], set := [], inc := [] } =
      .error { errorCode := "mongoDb", extraMessageCode := "update" } ∧
      preReplace 3 [("deletedAt", JsValue.vDate 5)] =
        .error { errorCode := "mongoDb", extraMessageCode := "replace" } :=
  C2_reject_truthy_deletedAt
    { fields := [("deletedAt", JsValue.vDate 5)], set := [], inc := [] }
    [("deletedAt", JsValue.vDate 5)] 3 3 rfl rfl

/-- C7: softDelete on an already deleted record fails with the AlreadyDeleted
error (CustomServerException mongoDb delete).  The method throws before
assigning anything, so no field of the record changes. -/
theorem C7_softDelete_already_deleted (d : Doc) (a : Option ObjectId) (t : Nat)
    (h : d.deletedAt.isSome = true) :
    d.softDelete a t = .error alreadyDeletedError := by
  unfold Doc.softDelete
  simp [h]

/-- Witness for C7 at a concrete deleted document. -/
theorem C7_witness :
    sampleDeletedDoc.softDelete (some ⟨1⟩) 9 = .error alreadyDeletedError :=
  C7_softDelete_already_deleted sampleDeletedDoc (some ⟨1⟩) 9 rfl

/-- C8 counterexample: the first persist of a new document with no non-audit
modified path leaves version at 0, not 1. -/
theorem C8_counterexample :
    (sampleNewEmptyDoc.save 5).map (fun x => (x.version, x.deletedAt)) =
      Except.ok (0, none) ∧ (0 : Nat) ≠ 1 :=
  ⟨rfl, by decide⟩

/-- C8 (amended): after the first persist of a new record at schema-default
version 0, live, whose creation modified at least one non-audit field,
version is 1 and deletedAt is null. -/
theorem C8_first_save_version (d : Doc) (t : Nat) (hnew : d.isNew = true)
    (hv : d.version = 0) (hlive : d.deletedAt = none)
    (hmod : d.modified.any (fun p => !(auditFields.contains p)) = true) :
    (d.save t).map (fun x => (x.version, x.deletedAt)) = Except.ok (1, none) := by
  rw [save_ok_spec d t (by rw [hlive]; rfl)]
  have hex : ∃ x ∈ d.modified, x ∉ auditFields := by simpa using hmod
  simp [hex, hv, hlive, Except.map]

/-- Witness for C8 at a concrete new document with one domain field. -/
theorem C8_witness :
    (sampleNewDoc.save 7).map (fun x => (x.version, x.deletedAt)) =
      Except.ok (1, none) :=
  C8_first_save_version sampleNewDoc 7 rfl rfl rfl (by decide)

/-- C10: restore also mutates updatedBy: it sets updatedBy to the supplied
actor, and to null when no actor is given. -/
theorem C10_restore_sets_updatedBy (d : Doc) (a : Option ObjectId) (t : Nat)
    (h : d.deletedAt.isSome = true) :
    (d.restore a t).map Doc.updatedBy = Except.ok a := by
  unfold Doc.restore
  have hno : d.deletedAt.isNone = false := by
    cases hd : d.deletedAt
    · rw [hd] at h
      exact absurd h (by simp)
    · rfl
  rw [hno]
  simp only [Bool.false_eq_true, if_false]
  cases a with
  | some r =>
    rw [save_ok_spec]
    · simp [Except.map]
    · simp
  | none =>
    rw [save_ok_spec]
    · simp [Except.map]
    · simp

/-- Witness for C10 at a concrete deleted document and no actor. -/
theorem C10_witness :
    (sampleDeletedDoc.restore none 9).map Doc.updatedBy = Except.ok none :=
  C10_restore_sets_updatedBy sampleDeletedDoc none 9 rfl

/-- C3 counterexample: replaceOne of the stored record at version 5 by a
replacement carrying no version field is accepted and writes back version 1:
the version of the record decreased under an accepted operation. -/
theorem C3_counterexample :
    (replaceOneDoc 9 sampleRec sampleReplacement).map recVersion = Except.ok 1 ∧
      recVersion sampleRec = 5 ∧ ¬((5 : Int) ≤ 1) :=
  ⟨rfl, rfl, by decide⟩

/-- C3 (amended): the version is monotonically non-decreasing under save,
softDelete, restore, the delete-translation update, and generic updates whose
payload does not itself target version (for those the increment is exactly 1,
and a save with a non-audit change also increments by exactly 1); replaceOne
is excluded, as forced by the counterexample. -/
theorem C3_version_monotone :
    (∀ (d : Doc) (t : Nat) (d2 : Doc), d.save t = .ok d2 → d.version ≤ d2.version) ∧
    (∀ (d : Doc) (a : Option ObjectId) (t : Nat) (d2 : Doc),
      d.softDelete a t = .ok d2 → d.version ≤ d2.version) ∧
    (∀ (d : Doc) (a : Option ObjectId) (t : Nat) (d2 : Doc),
      d.restore a t = .ok d2 → d.version ≤ d2.version) ∧
    (∀ (u : UpdateQuery) (r : Rec) (now : Nat) (u2 : UpdateQuery),
      preUpdate now u = .ok u2 →
      (∀ kv ∈ u.fields, ¬ kv.1 = "version") → (∀ kv ∈ u.set, ¬ kv.1 = "version") →
      recVersion (applyUpdate r u2) = recVersion r + 1) ∧
    (∀ (r : Rec) (now : Nat),
      recVersion r ≤ recVersion (applyUpdate r (deleteStamp now))) ∧
    (∀ (d : Doc) (t : Nat) (d2 : Doc), d.save t = .ok d2 →
      d.modified.any (fun p => !(auditFields.contains p)) = true →
      d2.version = d.version + 1) := by
  refine ⟨?_, softDelete_version_mono, restore_version_mono, ?_, ?_, ?_⟩
  · intro d t d2 h
    rcases save_version_eq d t d2 h with hv | hv <;> omega
  · intro u r now u2 h hf hs
    cases hacc : truthy (getEntry u.fields "deletedAt") with
    | true =>
      rw [preUpdate_error now u hacc] at h
      exact absurd h (by simp)
    | false =>
      rw [preUpdate_ok now u hacc] at h
      rw [Except.ok.injEq] at h
      subst h
      exact recVersion_applyUpdate_inject r u now hf hs
  · intro r now
    rw [applyUpdate_deleteStamp]
    unfold stampRec
    rw [recVersion_putEntry]
    omega
  · intro d t d2 h hmod
    cases hc : (d.deletedAt.isSome && !(d.modified.contains "deletedAt")) with
    | false =>
      rw [save_ok_spec d t hc] at h
      rw [Except.ok.injEq] at h
      subst h
      have hex : ∃ x ∈ d.modified, x ∉ auditFields := by simpa using hmod
      simp [hex]
    | true =>
      rw [save_error_spec d t hc] at h
      exact absurd h (by simp)

/-- Witness for C3 at a concrete clean save. -/
theorem C3_witness : sampleLiveDoc.version ≤ sampleSavedDoc.version :=
  C3_version_monotone.1 sampleLiveDoc 3 sampleSavedDoc rfl

/-- C4 counterexample: a default deleteMany whose filter matches an already
deleted record does not leave it untouched: the record is re-stamped with a
new deletion timestamp and a version bump. -/
theorem C4_counterexample :
    deleteManyDocs [sampleDeletedRec] [("age", JsValue.vNum 30)] false 10 =
      [[("_id", JsValue.vId ⟨2⟩), ("age", JsValue.vNum 30),
        ("deletedAt", JsValue.vDate 10), ("updatedAt", JsValue.vDate 10),
        ("version", JsValue.vNum 4)]] ∧
      deleteManyDocs [sampleDeletedRec] [("age", JsValue.vNum 30)] false 10 ≠
        [sampleDeletedRec] :=
  ⟨rfl, by decide⟩

/-- C4 (amended): a default deleteOne/deleteMany is translated into the
stamping update (deletedAt = now, updatedAt = now, version + 1) applied to
every matching record regardless of its deletion state, and the neutralized
criteria make the physical delete remove zero records; findOneAndDelete
stamps only the first matching record and also removes none. -/
theorem C4_delete_translation (store : Store) (f : Filter) (now : Nat)
    (hid : ∀ r ∈ store, truthy (getEntry r "_id") = true) :
    deleteManyDocs store f false now =
      store.map (fun r => if matchesFilter r f then stampRec now r else r) ∧
    (deleteManyDocs store f false now).length = store.length ∧
    deleteOneDocs store f false now =
      store.map (fun r => if matchesFilter r f then stampRec now r else r) ∧
    findOneAndDeleteDocs store f now = updateFirst store f (stampRec now) := by
  have hmap : ∀ x ∈ store.map (fun r => if matchesFilter r f then stampRec now r else r),
      truthy (getEntry x "_id") = true := by
    intro x hx
    rcases List.mem_map.mp hx with ⟨r, hr, hxr⟩
    subst hxr
    by_cases hm : matchesFilter r f = true
    · rw [if_pos hm, getEntry_stampRec_id]
      exact hid r hr
    · rw [if_neg hm]
      exact hid r hr
  have hmany : deleteManyDocs store f false now =
      store.map (fun r => if matchesFilter r f then stampRec now r else r) := by
    rw [deleteManyDocs_eq]
    simp only [Bool.false_eq_true, if_false]
    refine List.filter_eq_self.mpr ?_
    intro x hx
    rw [not_matches_neutralized x f (hmap x hx)]
    rfl
  refine ⟨hmany, by rw [hmany]; exact List.length_map _ _, ?_, ?_⟩
  · rw [deleteOneDocs_eq]
    simp only [Bool.false_eq_true, if_false]
    exact removeFirst_of_none_match _ _
      (fun x hx => not_matches_neutralized x f (hmap x hx))
  · rw [findOneAndDeleteDocs_eq]
    refine removeFirst_of_none_match _ _ ?_
    intro x hx
    rcases mem_updateFirst store f (stampRec now) x hx with hx2 | ⟨r, hr, hxr⟩
    · exact not_matches_neutralized x f (hid x hx2)
    · subst hxr
      refine not_matches_neutralized _ f ?_
      rw [getEntry_stampRec_id]
      exact hid r hr

/-- Witness for C4 at a concrete one-record store. -/
theorem C4_witness :
    deleteManyDocs [sampleRec] [("name", JsValue.vStr "a")] false 10 =
      [sampleRec].map (fun r =>
        if matchesFilter r [("name", JsValue.vStr "a")] then stampRec 10 r else r) ∧
    (deleteManyDocs [sampleRec] [("name", JsValue.vStr "a")] false 10).length =
      [sampleRec].length ∧
    deleteOneDocs [sampleRec] [("name", JsValue.vStr "a")] false 10 =
      [sampleRec].map (fun r =>
        if matchesFilter r [("name", JsValue.vStr "a")] then stampRec 10 r else r) ∧
    findOneAndDeleteDocs [sampleRec] [("name", JsValue.vStr "a")] 10 =
      updateFirst [sampleRec] [("name", JsValue.vStr "a")] (stampRec 10) :=
  C4_delete_translation [sampleRec] [("name", JsValue.vStr "a")] 10 (by decide)

/-- C5 counterexample: with the override flag set, a record matching a filter
on version 1 is stamped by the soft-delete translation (deletedAt and
updatedAt written, version bumped to 2) and, no longer matching the criteria,
even survives the physical delete: translation is not bypassed and the
matched record is modified. -/
theorem C5_counterexample :
    deleteManyDocs [sampleVersionRec] [("version", JsValue.vNum 1)] true 10 =
      [[("_id", JsValue.vId ⟨3⟩), ("deletedAt", JsValue.vDate 10),
        ("updatedAt", JsValue.vDate 10), ("version", JsValue.vNum 2)]] ∧
      deleteManyDocs [sampleVersionRec] [("version", JsValue.vNum 1)] true 10 ≠ [] :=
  ⟨rfl, by decide⟩

/-- C5 (amended): with the override flag the criteria are not neutralized, so
a genuine physical delete runs, but the soft-delete translation is not
bypassed: the stamping update still runs first on every matching record, and
the physical delete then removes the records still matching the original
criteria after stamping. -/
theorem C5_override_still_stamps (store : Store) (f : Filter) (now : Nat) :
    deleteManyDocs store f true now =
      (store.map (fun r => if matchesFilter r f then stampRec now r else r)).filter
        (fun r => !(matchesFilter r f)) ∧
    deleteOneDocs store f true now =
      removeFirst
        (store.map (fun r => if matchesFilter r f then stampRec now r else r)) f := by
  constructor
  · rw [deleteManyDocs_eq]
    simp
  · rw [deleteOneDocs_eq]
    simp

/-- C6: without includeDeleted, find, findOne, countDocuments,
estimatedDocumentCount, distinct and aggregate never return or count a
record with non-null deletedAt; with includeDeleted = true the same
operations work on the raw filter results, regardless of deletion state. -/
theorem C6_soft_delete_visibility :
    (∀ (store : Store) (f : Filter) (r : Rec),
      r ∈ findDocs store f { includeDeleted := false } → deletedAtNull r = true) ∧
    (∀ (store : Store) (f : Filter),
      findDocs store f { includeDeleted := true } =
        store.filter (fun r => matchesFilter r f)) ∧
    (∀ (store : Store) (f : Filter) (r : Rec),
      findOneDoc store f { includeDeleted := false } = some r →
        deletedAtNull r = true) ∧
    (∀ (store : Store) (f : Filter),
      findOneDoc store f { includeDeleted := true } =
        (store.filter (fun r => matchesFilter r f)).head?) ∧
    (∀ (store : Store) (f : Filter),
      countDocs store f { includeDeleted := false } =
        (store.filter (fun r => matchesFilter r f && deletedAtNull r)).length) ∧
    (∀ (store : Store) (f : Filter),
      countDocs store f { includeDeleted := true } =
        (store.filter (fun r => matchesFilter r f)).length) ∧
    (∀ (store : Store) (f : Filter),
      estimatedCountDocs store f { includeDeleted := false } =
        (store.filter (fun r => matchesFilter r f && deletedAtNull r)).length) ∧
    (∀ (store : Store) (f : Filter),
      estimatedCountDocs store f { includeDeleted := true } =
        (store.filter (fun r => matchesFilter r f)).length) ∧
    (∀ (store : Store) (key : String) (f : Filter),
      distinctDocs store key f { includeDeleted := false } =
        ((store.filter (fun r => matchesFilter r f && deletedAtNull r)).filterMap
          (fun r => getEntry r key)).dedup) ∧
    (∀ (store : Store) (key : String) (f : Filter),
      distinctDocs store key f { includeDeleted := true } =
        ((store.filter (fun r => matchesFilter r f)).filterMap
          (fun r => getEntry r key)).dedup) ∧
    (∀ (store : Store) (p : List Filter) (r : Rec),
      r ∈ aggregateDocs store p { includeDeleted := false } →
        deletedAtNull r = true) ∧
    (∀ (store : Store) (p : List Filter),
      aggregateDocs store p { includeDeleted := true } = runPipeline store p) := by
  have hfilter : ∀ (store : Store) (f : Filter),
      store.filter (fun r => matchesFilter r
          (restrictToLive { includeDeleted := false } f)) =
        store.filter (fun r => matchesFilter r f && deletedAtNull r) := by
    intro store f
    refine List.filter_congr ?_
    intro r _
    rw [matchesFilter_restrict_default]
  refine ⟨mem_findDocs_default_live, ?_, ?_, ?_, ?_, ?_, ?_, ?_, ?_, ?_, ?_, ?_⟩
  · intro store f
    rfl
  · intro store f r h
    exact mem_findDocs_default_live store f r (List.mem_of_mem_head? h)
  · intro store f
    rfl
  · intro store f
    unfold countDocs
    rw [hfilter]
  · intro store f
    rfl
  · intro store f
    unfold estimatedCountDocs
    rw [hfilter]
  · intro store f
    rfl
  · intro store key f
    unfold distinctDocs
    rw [hfilter]
  · intro store key f
    rfl
  · intro store p r h
    unfold aggregateDocs preAggregate at h
    rw [if_neg (by simp)] at h
    unfold runPipeline at h
    rw [List.foldl_cons] at h
    have hmem := mem_of_mem_runPipeline _ _ _ h
    have hm := (List.mem_filter.mp hmem).2
    rw [matchesFilter_single, condMatches_deletedAt_null] at hm
    exact hm
  · intro store p
    rfl

/-- Witness for C6 at a concrete live record and empty filter. -/
theorem C6_witness : deletedAtNull sampleRec = true :=
  C6_soft_delete_visibility.1 [sampleRec] [] sampleRec (by decide)

/-- C9: for every accepted update (payload not touching the deletion
timestamp) the hook transparently injects updatedAt = now into the set
section and forces the version increment to exactly 1; applying the
processed update to any stored record raises its version by exactly 1, one
increment per invocation regardless of how many fields the payload changes
(the payload itself not targeting version). -/
theorem C9_update_injection (u : UpdateQuery) (r : Rec) (now : Nat)
    (hacc : truthy (getEntry u.fields "deletedAt") = false)
    (hf : ∀ kv ∈ u.fields, ¬ kv.1 = "version")
    (hs : ∀ kv ∈ u.set, ¬ kv.1 = "version") :
    (preUpdate now u).map (fun u2 =>
        (getEntry u2.set "updatedAt", getEntry u2.inc "version")) =
      Except.ok (some (JsValue.vDate now), some 1) ∧
    (preUpdate now u).map (fun u2 => recVersion (applyUpdate r u2)) =
      Except.ok (recVersion r + 1) := by
  rw [preUpdate_ok now u hacc]
  constructor
  · simp [Except.map, getEntry_putEntry_self]
  · simp only [Except.map]
    rw [recVersion_applyUpdate_inject r u now hf hs]

/-- Witness for C9 at a two-field payload against the stored sample record:
one version increment despite two changed fields. -/
theorem C9_witness :
    (preUpdate 4 sampleTwoFieldUpdate).map (fun u2 =>
        (getEntry u2.set "updatedAt", getEntry u2.inc "version")) =
      Except.ok (some (JsValue.vDate 4), some 1) ∧
    (preUpdate 4 sampleTwoFieldUpdate).map
        (fun u2 => recVersion (applyUpdate sampleRec u2)) =
      Except.ok (recVersion sampleRec + 1) :=
  C9_update_injection sampleTwoFieldUpdate sampleRec 4 rfl (by decide) (by decide)

end Audit
